import Mathlib

/-!
A shallow embedding of `src/reader.c` (the libyaml incremental stream
decoder): raw-buffer refill, BOM-based encoding detection, UTF-8/UTF-16
scalar decoding, the scalar admissibility gate, re-encoding into the
normalized text buffer, and the `yaml_parser_update_buffer` orchestration
loop, together with theorems settling the frozen claims about them.

Machine integers are modelled as `Nat` (all quantities in the C code are
non-negative and no arithmetic overflows for byte-sized inputs); the two
byte regions `parser->raw_input` and `parser->input` are modelled as lists
whose length is the C `length` field; the external read handler is modelled
as a deterministic source that always succeeds (no transport errors, which
no claim concerns).
-/

namespace YamlReader

/-- Stream encodings (`yaml_encoding_t`); the pre-detection state
`YAML_ANY_ENCODING` is modelled as `none` in an `Option Encoding`. -/
inductive Encoding where
  | utf8
  | utf16le
  | utf16be
deriving DecidableEq, Repr

/-- The raw input buffer `parser->raw_input`: `data` models the valid byte
region `buffer[0, length)`, so `data.length` is the C `length` field;
`pointer` is the read cursor and `capacity` the fixed allocation size. -/
structure RawBuffer where
  data : List Nat
  pointer : Nat
  capacity : Nat
deriving DecidableEq, Repr

/-- The decoded output buffer `parser->input`: `data` models the valid region
`buffer[0, length)`; the C code never checks this buffer's capacity when
appending, so no capacity bound is modelled. -/
structure TextBuffer where
  data : List Nat
  pointer : Nat
deriving DecidableEq, Repr

/-- The external byte source `parser->reader` / `parser->reader_data`:
each call delivers up to `min chunk space` of the remaining `bytes`
(where `space` is the free room offered by the caller) and never reports
a transport failure. -/
structure Source where
  bytes : List Nat
  chunk : Nat
deriving DecidableEq, Repr

/-- The slice of `yaml_parser_t` used by `reader.c`.  `written` is an
observation-only trace of every byte ever appended to `input.data`; it is
never read by any of the algorithm definitions. -/
structure ParserState where
  raw_input : RawBuffer
  input : TextBuffer
  unread : Nat
  encoding : Option Encoding
  offset : Nat
  is_eof : Bool
  source : Source
  written : List Nat
deriving DecidableEq, Repr

/-- One call of the read handler: produce `min chunk space` of the remaining
source bytes and drop them from the source. -/
def sourceRead (s : Source) (space : Nat) : List Nat × Source :=
  (s.bytes.take (min s.chunk space), { s with bytes := s.bytes.drop (min s.chunk space) })

/-- The `memmove` in `yaml_parser_update_raw_buffer`: the bytes of
`[pointer, length)` are copied to offset 0; positions
`[length - pointer, length)` keep their previous contents.  (The C code
does not shrink the `length` field afterwards.) -/
def memmoveRaw (data : List Nat) (pointer : Nat) : List Nat :=
  data.drop pointer ++ data.drop (data.length - pointer)

/-- `yaml_parser_update_raw_buffer` (reader.c:75-115): return unchanged if
the buffer is full with `pointer == 0` or on EOF; otherwise memmove the
remaining bytes to the beginning when `0 < pointer < length`, reset
`pointer` to 0, call the read handler to fill `[length, capacity)`, add the
produced count to `length` and set the EOF flag if nothing was produced. -/
def yaml_parser_update_raw_buffer (p : ParserState) : ParserState :=
  if p.raw_input.pointer = 0 ∧ p.raw_input.data.length = p.raw_input.capacity then p
  else if p.is_eof then p
  else
    let data1 :=
      if 0 < p.raw_input.pointer ∧ p.raw_input.pointer < p.raw_input.data.length then
        memmoveRaw p.raw_input.data p.raw_input.pointer
      else p.raw_input.data
    let res := sourceRead p.source (p.raw_input.capacity - data1.length)
    { p with
      raw_input := { p.raw_input with data := data1 ++ res.1, pointer := 0 },
      source := res.2,
      is_eof := if res.1.length = 0 then true else p.is_eof }

/-- `yaml_parser_determine_encoding` (reader.c:33-69): pull raw bytes until
at least 3 are buffered or EOF, then select the encoding from the leading
bytes, consuming any BOM.  The pull loop is given explicit fuel (the C loop
terminates because every refill either produces bytes or sets EOF). -/
def yaml_parser_determine_encoding : Nat → ParserState → Option ParserState
  | 0, _ => none
  | fuel+1, p =>
    if ¬p.is_eof ∧ p.raw_input.data.length < 3 then
      yaml_parser_determine_encoding fuel (yaml_parser_update_raw_buffer p)
    else if 2 ≤ p.raw_input.data.length ∧ p.raw_input.data.take 2 = [0xFF, 0xFE] then
      some { p with encoding := some .utf16le,
                    raw_input := { p.raw_input with pointer := 2 }, offset := 2 }
    else if 2 ≤ p.raw_input.data.length ∧ p.raw_input.data.take 2 = [0xFE, 0xFF] then
      some { p with encoding := some .utf16be,
                    raw_input := { p.raw_input with pointer := 2 }, offset := 2 }
    else if 3 ≤ p.raw_input.data.length ∧ p.raw_input.data.take 3 = [0xEF, 0xBB, 0xBF] then
      some { p with encoding := some .utf8,
                    raw_input := { p.raw_input with pointer := 3 }, offset := 3 }
    else
      some { p with encoding := some .utf8 }

/-- The per-scalar result of one decode attempt (the `break`/`return`
control flow of the C `switch` made explicit). -/
inductive DecodeOutcome where
  | decoded (value width : Nat)
  | incomplete
  | invalid (message : String) (offset : Nat) (value : Int)
deriving DecidableEq, Repr

/-- A fatal decoder error (`DECODER_ERROR_INIT` payload). -/
structure DecodeError where
  message : String
  offset : Nat
  value : Int
deriving DecidableEq, Repr

/-- Sequence width from the leading UTF-8 octet (reader.c:212-215). -/
def utf8Width (octet : Nat) : Nat :=
  if octet &&& 0x80 = 0x00 then 1
  else if octet &&& 0xE0 = 0xC0 then 2
  else if octet &&& 0xF0 = 0xE0 then 3
  else if octet &&& 0xF8 = 0xF0 then 4
  else 0

/-- Payload bits of the leading UTF-8 octet (reader.c:238-241). -/
def utf8LeadValue (octet : Nat) : Nat :=
  if octet &&& 0x80 = 0x00 then octet &&& 0x7F
  else if octet &&& 0xE0 = 0xC0 then octet &&& 0x1F
  else if octet &&& 0xF0 = 0xE0 then octet &&& 0x0F
  else if octet &&& 0xF8 = 0xF0 then octet &&& 0x07
  else 0

/-- The trailing-octet loop of the UTF-8 decoder (reader.c:245-259): check
each continuation octet against `10xxxxxx` and accumulate its low 6 bits;
`k` is the index of the current octet within the sequence. -/
def utf8Trail : Nat → Nat → List Nat → Except (String × Nat × Int) Nat
  | value, _, [] => .ok value
  | value, k, octet :: rest =>
    if ¬(octet &&& 0xC0 = 0x80) then
      .error ("Invalid trailing UTF-8 octet", k, (octet : Int))
    else
      utf8Trail ((value <<< 6) + (octet &&& 0x3F)) (k + 1) rest

/-- The UTF-8 arm of the decode switch (reader.c:187-278), acting on the
unconsumed raw bytes. -/
def utf8Decode (is_eof : Bool) (offset : Nat) (bytes : List Nat) : DecodeOutcome :=
  match bytes with
  | [] => .incomplete
  | octet :: _ =>
    let width := utf8Width octet
    if width = 0 then
      .invalid "Invalid leading UTF-8 octet" offset (octet : Int)
    else if bytes.length < width then
      if is_eof then .invalid "Incomplete UTF-8 octet sequence" offset (-1)
      else .incomplete
    else
      match utf8Trail (utf8LeadValue octet) 1 ((bytes.take width).drop 1) with
      | .error e => .invalid e.1 (offset + e.2.1) e.2.2
      | .ok value =>
        if ¬(width = 1 ∨ (width = 2 ∧ 0x80 ≤ value) ∨ (width = 3 ∧ 0x800 ≤ value) ∨
              (width = 4 ∧ 0x10000 ≤ value)) then
          .invalid "Invalid length of a UTF-8 sequence" offset (-1)
        else if (0xD800 ≤ value ∧ value ≤ 0xDFFF) ∨ 0x10FFFF < value then
          .invalid "Invalid Unicode character" offset (value : Int)
        else
          .decoded value width

/-- The UTF-16 arm of the decode switch (reader.c:280-373); `le` selects the
byte order (`low`/`high` index choice of reader.c:283-284). -/
def utf16Decode (le : Bool) (is_eof : Bool) (offset : Nat) (bytes : List Nat) : DecodeOutcome :=
  let low : Nat := if le then 0 else 1
  let high : Nat := if le then 1 else 0
  if bytes.length < 2 then
    if is_eof then .invalid "Incomplete UTF-16 character" offset (-1)
    else .incomplete
  else
    let value := bytes.getD low 0 + (bytes.getD high 0 <<< 8)
    if value &&& 0xFC00 = 0xDC00 then
      .invalid "Unexpected low surrogate area" offset (value : Int)
    else if value &&& 0xFC00 = 0xD800 then
      if bytes.length < 4 then
        if is_eof then .invalid "Incomplete UTF-16 surrogate pair" offset (-1)
        else .incomplete
      else
        let value2 := bytes.getD (low + 2) 0 + (bytes.getD (high + 2) 0 <<< 8)
        if ¬(value2 &&& 0xFC00 = 0xDC00) then
          .invalid "Expected low surrogate area" (offset + 2) (value2 : Int)
        else
          .decoded (0x10000 + ((value &&& 0x3FF) <<< 10) + (value2 &&& 0x3FF)) 4
    else
      .decoded value 2

/-- One decode attempt for the next scalar, dispatching on the encoding
(the `switch (parser->encoding)` of reader.c:185-377). -/
def decodeStep (enc : Encoding) (is_eof : Bool) (offset : Nat) (bytes : List Nat) :
    DecodeOutcome :=
  match enc with
  | .utf8 => utf8Decode is_eof offset bytes
  | .utf16le => utf16Decode true is_eof offset bytes
  | .utf16be => utf16Decode false is_eof offset bytes

/-- The scalar admissibility gate (reader.c:391-395). -/
def allowedCharacter (value : Nat) : Bool :=
  value = 0x09 || value = 0x0A || value = 0x0D
    || (0x20 ≤ value && value ≤ 0x7E)
    || value = 0x85
    || (0xA0 ≤ value && value ≤ 0xD7FF)
    || (0xE000 ≤ value && value ≤ 0xFFFD)
    || (0x10000 ≤ value && value ≤ 0x10FFFF)

/-- Re-encoding of an accepted scalar into the normalized output bytes
(reader.c:407-428). -/
def encodeUtf8 (value : Nat) : List Nat :=
  if value ≤ 0x7F then [value]
  else if value ≤ 0x7FF then
    [0xC0 + (value >>> 6), 0x80 + (value &&& 0x3F)]
  else if value ≤ 0xFFFF then
    [0xE0 + (value >>> 12), 0x80 + ((value >>> 6) &&& 0x3F), 0x80 + (value &&& 0x3F)]
  else
    [0xF0 + (value >>> 18), 0x80 + ((value >>> 12) &&& 0x3F),
     0x80 + ((value >>> 6) &&& 0x3F), 0x80 + (value &&& 0x3F)]

/-- The success bookkeeping of one decoded scalar (reader.c:400-430):
advance the raw pointer and the stream offset by the consumed width, append
the re-encoded scalar to the output buffer and count one more unread
scalar. -/
def appendScalar (p : ParserState) (value width : Nat) : ParserState :=
  { p with
    raw_input := { p.raw_input with pointer := p.raw_input.pointer + width },
    offset := p.offset + width,
    input := { p.input with data := p.input.data ++ encodeUtf8 value },
    written := p.written ++ encodeUtf8 value,
    unread := p.unread + 1 }

/-- Unconsumed raw byte count `raw_input.length - raw_input.pointer`. -/
def rawUnread (p : ParserState) : Nat :=
  p.raw_input.data.length - p.raw_input.pointer

/-- The inner decode loop of `yaml_parser_update_buffer` (reader.c:170-431),
with fuel: run decode attempts until the raw buffer is drained, a scalar is
incomplete (no error: the pass just ends), or a fatal error occurs.  The
wrapper `decodeLoop` supplies sufficient fuel: every decoded scalar consumes
at least one raw byte. -/
def decodeLoopAux : Nat → ParserState → ParserState × Option DecodeError
  | 0, p => (p, none)
  | fuel+1, p =>
    if p.raw_input.pointer = p.raw_input.data.length then (p, none)
    else
      match decodeStep (p.encoding.getD .utf8) p.is_eof p.offset
          (p.raw_input.data.drop p.raw_input.pointer) with
      | .incomplete => (p, none)
      | .invalid m o v => (p, some ⟨m, o, v⟩)
      | .decoded value width =>
        if allowedCharacter value then
          decodeLoopAux fuel (appendScalar p value width)
        else
          (p, some ⟨"Control characters are not allowed", p.offset, (value : Int)⟩)

/-- The inner decode loop with its sufficient fuel. -/
def decodeLoop (p : ParserState) : ParserState × Option DecodeError :=
  decodeLoopAux (rawUnread p) p

/-- Output-buffer compaction at the start of `yaml_parser_update_buffer`
(reader.c:148-158): shift the unread region to offset 0 (the `length` field
is decremented here, unlike the raw-buffer case). -/
def compactInput (p : ParserState) : ParserState :=
  if 0 < p.input.pointer ∧ p.input.pointer < p.input.data.length then
    { p with input := { data := p.input.data.drop p.input.pointer, pointer := 0 } }
  else if p.input.pointer = p.input.data.length then
    { p with input := { data := [], pointer := 0 } }
  else p

/-- Appending the terminating NUL sentinel on EOF (reader.c:435-439). -/
def appendSentinel (p : ParserState) : ParserState :=
  { p with
    input := { p.input with data := p.input.data ++ [0] },
    written := p.written ++ [0],
    unread := p.unread + 1 }

/-- The outer fill loop of `yaml_parser_update_buffer` (reader.c:162-441),
with fuel: while fewer than `length` scalars are unread, refill the raw
buffer, run the decode loop, and on EOF append the sentinel and stop. -/
def updateLoop : Nat → ParserState → Nat → Option (ParserState × Option DecodeError)
  | 0, _, _ => none
  | fuel+1, p, length =>
    if p.unread < length then
      let p1 := yaml_parser_update_raw_buffer p
      match decodeLoop p1 with
      | (p2, some e) => some (p2, some e)
      | (p2, none) =>
        if p2.is_eof then some (appendSentinel p2, none)
        else updateLoop fuel p2 length
    else some (p, none)

/-- `yaml_parser_update_buffer` (reader.c:124-444): fast paths (stream
already terminated, or enough unread scalars), one-time encoding detection,
output-buffer compaction, then the fill loop.  `none` means the fuel ran
out (the C loops terminate because the source is finite). -/
def yaml_parser_update_buffer (fuel : Nat) (p : ParserState) (length : Nat) :
    Option (ParserState × Option DecodeError) :=
  if p.is_eof ∧ p.raw_input.pointer = p.raw_input.data.length then some (p, none)
  else if length ≤ p.unread then some (p, none)
  else
    match (if p.encoding = none then yaml_parser_determine_encoding fuel p else some p) with
    | none => none
    | some p1 => updateLoop fuel (compactInput p1) length

/-- A fresh stream context over the given source bytes, delivered `chunk`
bytes per read-handler call, with the given raw-buffer capacity. -/
def initState (bytes : List Nat) (chunk capacity : Nat) : ParserState :=
  { raw_input := { data := [], pointer := 0, capacity := capacity },
    input := { data := [], pointer := 0 },
    unread := 0, encoding := none, offset := 0, is_eof := false,
    source := { bytes := bytes, chunk := chunk }, written := [] }

/-- Caller-side consumption of one scalar from the output buffer (as the
downstream scanner does): read the leading byte at `input.pointer`, advance
past the scalar's output bytes and decrement `unread`. -/
def consumeScalar (p : ParserState) : Option (List Nat × ParserState) :=
  match p.input.data.drop p.input.pointer with
  | [] => none
  | b :: _ =>
    let w := utf8Width b
    if w = 0 then none
    else
      some ((p.input.data.drop p.input.pointer).take w,
        { p with input := { p.input with pointer := p.input.pointer + w },
                 unread := p.unread - 1 })

/-- A driver that repeatedly calls `ensure(1)` (`yaml_parser_update_buffer`
with requested length 1) and consumes one scalar after each call,
accumulating the consumed output bytes, until the NUL sentinel is consumed
or an error is reported. -/
def drive : Nat → ParserState → List Nat → Option (List Nat × Option DecodeError)
  | 0, _, _ => none
  | fuel+1, p, acc =>
    match yaml_parser_update_buffer (fuel + 1) p 1 with
    | none => none
    | some (_, some e) => some (acc, some e)
    | some (p1, none) =>
      match consumeScalar p1 with
      | none => none
      | some (bs, p2) =>
        if bs = [0] then some (acc ++ bs, none)
        else drive fuel p2 (acc ++ bs)

/-- Run a whole stream delivering one byte per read-handler call. -/
def runByteAtATime (bytes : List Nat) : Option (List Nat × Option DecodeError) :=
  drive 64 (initState bytes 1 16) []

/-- Run a whole stream delivering everything in a single read-handler call. -/
def runAllAtOnce (bytes : List Nat) : Option (List Nat × Option DecodeError) :=
  drive 64 (initState bytes 16 16) []

/-- The stream is permanently finished: EOF is set and the raw buffer is
fully drained (the condition of the first fast path of
`yaml_parser_update_buffer`, reader.c:131). -/
def sentinelState (p : ParserState) : Prop :=
  p.is_eof = true ∧ p.raw_input.pointer = p.raw_input.data.length

instance (p : ParserState) : Decidable (sentinelState p) := by
  unfold sentinelState; infer_instance

/-! ### Helper lemmas -/

theorem land_shift_eq {u : Nat} (h : u < 65536) :
    u &&& 0xFC00 = u / 1024 * 1024 := by
  have h1 : u / 1024 * 1024 = (u >>> 10) <<< 10 := by
    rw [Nat.shiftLeft_eq, Nat.shiftRight_eq_div_pow]
  have h2 : (0xFC00 : Nat) = 63 <<< 10 := by rw [Nat.shiftLeft_eq]
  rw [h1, h2]
  apply Nat.eq_of_testBit_eq
  intro i
  rw [Nat.testBit_and, Nat.testBit_shiftLeft, Nat.testBit_shiftLeft,
    Nat.testBit_shiftRight]
  have h63 : (63 : Nat) = 2 ^ 6 - 1 := by norm_num
  rw [h63, Nat.testBit_two_pow_sub_one]
  rcases Nat.lt_or_ge i 10 with hi | hi
  · simp [Nat.not_le.mpr hi, show ¬(10 ≤ i) from Nat.not_le.mpr hi]
  · rcases Nat.lt_or_ge i 16 with hi16 | hi16
    · have : 10 + (i - 10) = i := by omega
      simp [Nat.le_of_lt, hi, this, show i - 10 < 6 by omega]
    · have hbit : u.testBit i = false := by
        apply Nat.testBit_lt_two_pow
        calc u < 65536 := h
          _ = 2 ^ 16 := by norm_num
          _ ≤ 2 ^ i := Nat.pow_le_pow_right (by norm_num) hi16
      have : 10 + (i - 10) = i := by omega
      simp [hbit, this, show ¬(i - 10 < 6) by omega]

theorem land_FC00_eq_DC00_iff {u : Nat} (h : u < 65536) :
    u &&& 0xFC00 = 0xDC00 ↔ (0xDC00 ≤ u ∧ u ≤ 0xDFFF) := by
  rw [land_shift_eq h]
  omega

theorem land_FC00_eq_D800_iff {u : Nat} (h : u < 65536) :
    u &&& 0xFC00 = 0xD800 ↔ (0xD800 ≤ u ∧ u ≤ 0xDBFF) := by
  rw [land_shift_eq h]
  omega

theorem getD_lt_256 {l : List Nat} (h : ∀ b ∈ l, b < 256) (i : Nat) :
    l.getD i 0 < 256 := by
  rcases Nat.lt_or_ge i l.length with hi | hi
  · rw [List.getD_eq_getElem l 0 hi]
    exact h _ (List.getElem_mem hi)
  · rw [List.getD_eq_default l 0 hi]
    norm_num

theorem utf8Decode_decoded_width {f : Bool} {o : Nat} {b : List Nat} {v w : Nat}
    (h : utf8Decode f o b = .decoded v w) : 1 ≤ w ∧ w ≤ b.length := by
  cases b with
  | nil => simp [utf8Decode] at h
  | cons octet rest =>
    simp only [utf8Decode] at h
    split at h
    · simp at h
    · split at h
      · split at h <;> simp at h
      · split at h
        · simp at h
        · split at h
          · simp at h
          · split at h
            · simp at h
            · rename_i hw _ hlen _ _ _ _
              injection h with h1 h2
              subst h2
              constructor
              · omega
              · omega

theorem utf16Decode_decoded_width {le f : Bool} {o : Nat} {b : List Nat} {v w : Nat}
    (h : utf16Decode le f o b = .decoded v w) : 1 ≤ w ∧ w ≤ b.length := by
  simp only [utf16Decode] at h
  split at h
  · split at h <;> simp at h
  · split at h
    all_goals
      split at h
      · simp at h
      · split at h
        · split at h
          · split at h <;> simp at h
          · split at h
            · simp at h
            · injection h with h1 h2
              omega
        · injection h with h1 h2
          omega

theorem decodeStep_decoded_width {e : Encoding} {f : Bool} {o : Nat} {b : List Nat}
    {v w : Nat} (h : decodeStep e f o b = .decoded v w) : 1 ≤ w ∧ w ≤ b.length := by
  cases e with
  | utf8 => exact utf8Decode_decoded_width h
  | utf16le => exact utf16Decode_decoded_width h
  | utf16be => exact utf16Decode_decoded_width h

theorem utf8Decode_eof_ne_incomplete {o : Nat} {b : List Nat} (hb : b ≠ []) :
    utf8Decode true o b ≠ .incomplete := by
  cases b with
  | nil => exact absurd rfl hb
  | cons octet rest =>
    simp only [utf8Decode]
    split
    · simp
    · split
      · simp
      · split
        · simp
        · split
          · simp
          · split <;> simp

theorem utf16Decode_eof_ne_incomplete {le : Bool} {o : Nat} {b : List Nat} :
    utf16Decode le true o b ≠ .incomplete := by
  simp only [utf16Decode]
  split
  · simp
  · split
    all_goals
      split
      · simp
      · split
        · split
          · simp
          · split <;> simp
        · simp

theorem decodeStep_eof_ne_incomplete {e : Encoding} {o : Nat} {b : List Nat}
    (hb : b ≠ []) : decodeStep e true o b ≠ .incomplete := by
  cases e with
  | utf8 => exact utf8Decode_eof_ne_incomplete hb
  | utf16le => exact utf16Decode_eof_ne_incomplete
  | utf16be => exact utf16Decode_eof_ne_incomplete

theorem encodeUtf8_length (v : Nat) :
    (encodeUtf8 v).length =
      if v ≤ 0x7F then 1 else if v ≤ 0x7FF then 2 else if v ≤ 0xFFFF then 3 else 4 := by
  unfold encodeUtf8
  split
  · rfl
  · split
    · rfl
    · split <;> rfl

theorem allowedCharacter_ne_zero {v : Nat} (h : allowedCharacter v = true) : v ≠ 0 := by
  simp only [allowedCharacter, Bool.or_eq_true, Bool.and_eq_true, decide_eq_true_eq] at h
  omega

theorem encodeUtf8_zero_not_mem {v : Nat} (h : allowedCharacter v = true) :
    0 ∉ encodeUtf8 v := by
  have hv := allowedCharacter_ne_zero h
  unfold encodeUtf8
  split
  · simpa using fun hz => hv hz.symm
  · split
    · simp only [List.mem_cons, List.not_mem_nil, or_false]
      omega
    · split
      · simp only [List.mem_cons, List.not_mem_nil, or_false]
        omega
      · simp only [List.mem_cons, List.not_mem_nil, or_false]
        omega

/-! ### Claims C1 and C2: the raw-buffer refill does not shrink `length` -/

/-- C1: the claim states that a non-no-op `refill()` leaves the unconsumed
region equal to the previously unconsumed bytes `[pointer, length)` moved to
offset 0 followed by the newly produced bytes, with `length` equal to their
combined count.  Evaluating `yaml_parser_update_raw_buffer` at a concrete
non-no-op state (`data = [0x41, 0x42]`, `pointer = 1`, EOF unset, source
producing `[0x43]`) refutes this: the code moves the remaining bytes but
never subtracts `pointer` from `length`, so the stale byte `0x42` stays
inside the unconsumed region and `length` ends at 3, not 2. -/
theorem C1_refill_keeps_stale_bytes :
    (yaml_parser_update_raw_buffer
      { raw_input := { data := [0x41, 0x42], pointer := 1, capacity := 8 },
        input := { data := [], pointer := 0 },
        unread := 0, encoding := some .utf8, offset := 1, is_eof := false,
        source := { bytes := [0x43], chunk := 8 }, written := [] }).raw_input =
      { data := [0x42, 0x42, 0x43], pointer := 0, capacity := 8 } ∧
    (yaml_parser_update_raw_buffer
      { raw_input := { data := [0x41, 0x42], pointer := 1, capacity := 8 },
        input := { data := [], pointer := 0 },
        unread := 0, encoding := some .utf8, offset := 1, is_eof := false,
        source := { bytes := [0x43], chunk := 8 }, written := [] }).raw_input.data ≠
      [0x42, 0x43] := by
  constructor
  · rfl
  · decide

/-- C2: the claim states that delivering the input one byte per read-handler
call across repeated `ensure(1)` calls yields the same decoded output as
delivering it in one read.  Evaluating both drivers on the plain ASCII
stream "ABCDE" refutes this: because `yaml_parser_update_raw_buffer` resets
`pointer` to 0 without shrinking `length`, already-consumed raw bytes are
re-decoded after every refill that follows a fully-drained buffer, and the
two chunkings re-decode different amounts of stale data. -/
theorem C2_chunking_changes_output :
    runByteAtATime [0x41, 0x42, 0x43, 0x44, 0x45] =
      some ([0x41, 0x42, 0x43, 0x44, 0x41, 0x42, 0x43, 0x44, 0x45,
             0x41, 0x42, 0x43, 0x44, 0x45, 0], none) ∧
    runAllAtOnce [0x41, 0x42, 0x43, 0x44, 0x45] =
      some ([0x41, 0x42, 0x43, 0x44, 0x45, 0], none) ∧
    runByteAtATime [0x41, 0x42, 0x43, 0x44, 0x45] ≠
      runAllAtOnce [0x41, 0x42, 0x43, 0x44, 0x45] := by
  refine ⟨by decide, by decide, by decide⟩

/-! ### Claim C3: UTF-8 error classification -/

/-- C3: in the UTF-8 decoder, (1) a leading byte matching none of the four
valid patterns fails with the invalid-leading-octet error; (2) a complete
sequence with valid continuation bytes (`utf8Trail` returns the accumulated
value) whose value is below the minimum for its width fails with the
invalid-sequence-length error; (3) a structurally valid sequence (valid
patterns, complete, and of minimal length) whose value is a surrogate or
exceeds 0x10FFFF fails with the invalid-code-point error. -/
theorem C3_utf8_error_classification :
    (∀ (eof : Bool) (off octet : Nat) (rest : List Nat),
      ¬(octet &&& 0x80 = 0x00) → ¬(octet &&& 0xE0 = 0xC0) →
      ¬(octet &&& 0xF0 = 0xE0) → ¬(octet &&& 0xF8 = 0xF0) →
      utf8Decode eof off (octet :: rest) =
        .invalid "Invalid leading UTF-8 octet" off (octet : Int)) ∧
    (∀ (eof : Bool) (off octet : Nat) (rest : List Nat) (value : Nat),
      utf8Width octet ≤ (octet :: rest).length →
      utf8Trail (utf8LeadValue octet) 1 (((octet :: rest).take (utf8Width octet)).drop 1)
        = .ok value →
      ((utf8Width octet = 2 ∧ value < 0x80) ∨ (utf8Width octet = 3 ∧ value < 0x800) ∨
        (utf8Width octet = 4 ∧ value < 0x10000)) →
      utf8Decode eof off (octet :: rest) =
        .invalid "Invalid length of a UTF-8 sequence" off (-1)) ∧
    (∀ (eof : Bool) (off octet : Nat) (rest : List Nat) (value : Nat),
      utf8Width octet ≠ 0 →
      utf8Width octet ≤ (octet :: rest).length →
      utf8Trail (utf8LeadValue octet) 1 (((octet :: rest).take (utf8Width octet)).drop 1)
        = .ok value →
      (utf8Width octet = 1 ∨ (utf8Width octet = 2 ∧ 0x80 ≤ value) ∨
        (utf8Width octet = 3 ∧ 0x800 ≤ value) ∨ (utf8Width octet = 4 ∧ 0x10000 ≤ value)) →
      ((0xD800 ≤ value ∧ value ≤ 0xDFFF) ∨ 0x10FFFF < value) →
      utf8Decode eof off (octet :: rest) =
        .invalid "Invalid Unicode character" off (value : Int)) := by
  refine ⟨?_, ?_, ?_⟩
  · intro eof off octet rest h1 h2 h3 h4
    have hw : utf8Width octet = 0 := by simp [utf8Width, h1, h2, h3, h4]
    simp [utf8Decode, hw]
  · intro eof off octet rest value hlen htrail hover
    have hw0 : utf8Width octet ≠ 0 := by
      rcases hover with ⟨hw, _⟩ | ⟨hw, _⟩ | ⟨hw, _⟩ <;> omega
    have hmin : ¬(utf8Width octet = 1 ∨ (utf8Width octet = 2 ∧ 0x80 ≤ value) ∨
        (utf8Width octet = 3 ∧ 0x800 ≤ value) ∨ (utf8Width octet = 4 ∧ 0x10000 ≤ value)) := by
      rcases hover with ⟨hw, hv⟩ | ⟨hw, hv⟩ | ⟨hw, hv⟩ <;> simp [hw] <;> omega
    simp only [utf8Decode]
    rw [if_neg hw0, if_neg (Nat.not_lt.mpr hlen)]
    simp only [htrail]
    rw [if_pos hmin]
  · intro eof off octet rest value hw0 hlen htrail hmin hrange
    simp only [utf8Decode]
    rw [if_neg hw0, if_neg (Nat.not_lt.mpr hlen)]
    simp only [htrail]
    rw [if_neg (not_not_intro hmin), if_pos hrange]

/-- C3 witness: the three error classes at concrete inputs — the lone byte
`FF`, the overlong sequence `C0 80` (encoding 0 in width 2), and the
surrogate `ED A0 80` (encoding 0xD800 in width 3). -/
theorem C3_utf8_error_classification_witness :
    utf8Decode false 0 [0xFF] = .invalid "Invalid leading UTF-8 octet" 0 0xFF ∧
    utf8Decode false 0 [0xC0, 0x80] = .invalid "Invalid length of a UTF-8 sequence" 0 (-1) ∧
    utf8Decode false 0 [0xED, 0xA0, 0x80] = .invalid "Invalid Unicode character" 0 0xD800 := by
  refine ⟨?_, ?_, ?_⟩
  · exact C3_utf8_error_classification.1 false 0 0xFF []
      (by decide) (by decide) (by decide) (by decide)
  · exact C3_utf8_error_classification.2.1 false 0 0xC0 [0x80] 0
      (by decide) (by rfl) (by decide)
  · exact C3_utf8_error_classification.2.2 false 0 0xED [0xA0, 0x80] 0xD800
      (by decide) (by decide) (by rfl) (by decide) (by decide)

/-! ### Claim C9: incomplete-sequence handling -/

/-- C9: whenever a decode attempt finds fewer buffered bytes than the scalar
requires — a UTF-8 sequence shorter than its width, fewer than 2 bytes for a
UTF-16 unit, or fewer than 4 for a surrogate pair — the outcome is the
fatal incomplete-sequence error when the EOF flag is set and the non-fatal
`incomplete` outcome otherwise; an `incomplete` outcome ends the decode pass
with no error and the state unchanged (so the same scalar is retried), and
with EOF set a decode attempt never yields `incomplete`. -/
theorem C9_incomplete_handling :
    (∀ (eof : Bool) (off octet : Nat) (rest : List Nat),
      utf8Width octet ≠ 0 → (octet :: rest).length < utf8Width octet →
      utf8Decode eof off (octet :: rest) =
        if eof then .invalid "Incomplete UTF-8 octet sequence" off (-1) else .incomplete) ∧
    (∀ (le eof : Bool) (off : Nat) (bytes : List Nat),
      bytes.length < 2 →
      utf16Decode le eof off bytes =
        if eof then .invalid "Incomplete UTF-16 character" off (-1) else .incomplete) ∧
    (∀ (le eof : Bool) (off : Nat) (bytes : List Nat) (unit : Nat),
      (∀ b ∈ bytes, b < 256) → 2 ≤ bytes.length → bytes.length < 4 →
      unit = bytes.getD (if le then 0 else 1) 0 + (bytes.getD (if le then 1 else 0) 0 <<< 8) →
      0xD800 ≤ unit → unit ≤ 0xDBFF →
      utf16Decode le eof off bytes =
        if eof then .invalid "Incomplete UTF-16 surrogate pair" off (-1) else .incomplete) ∧
    (∀ (p : ParserState) (fuel : Nat),
      decodeStep (p.encoding.getD .utf8) p.is_eof p.offset
          (p.raw_input.data.drop p.raw_input.pointer) = .incomplete →
      decodeLoopAux (fuel + 1) p = (p, none)) ∧
    (∀ (e : Encoding) (off : Nat) (b : List Nat),
      b ≠ [] → decodeStep e true off b ≠ .incomplete) := by
  refine ⟨?_, ?_, ?_, ?_, ?_⟩
  · intro eof off octet rest hw0 hlt
    simp only [utf8Decode]
    rw [if_neg hw0, if_pos hlt]
  · intro le eof off bytes hlen
    simp only [utf16Decode]
    rw [if_pos hlen]
  · intro le eof off bytes unit hb h2 h4 hunit hlo hhi
    have hu1 := getD_lt_256 hb (if le then 0 else 1)
    have hu2 := getD_lt_256 hb (if le then 1 else 0)
    have hshift : bytes.getD (if le then 1 else 0) 0 <<< 8 =
        bytes.getD (if le then 1 else 0) 0 * 256 := by
      rw [Nat.shiftLeft_eq]
    have hu16 : unit < 65536 := by rw [hunit, hshift]; omega
    have hmask1 : ¬(unit &&& 0xFC00 = 0xDC00) := by
      rw [land_FC00_eq_DC00_iff hu16]; omega
    have hmask2 : unit &&& 0xFC00 = 0xD800 := by
      rw [land_FC00_eq_D800_iff hu16]; omega
    simp only [utf16Decode]
    rw [if_neg (Nat.not_lt.mpr h2), ← hunit, if_neg hmask1, if_pos hmask2, if_pos h4]
  · intro p fuel h
    simp only [decodeLoopAux]
    split
    · rfl
    · rw [h]
  · intro e off b hb
    exact decodeStep_eof_ne_incomplete hb

/-- C9 witness: a truncated UTF-8 sequence (`C2` alone), a truncated UTF-16
unit, and a lone UTF-16 high surrogate, each with and without the EOF flag;
plus the loop step on an incomplete attempt. -/
theorem C9_incomplete_handling_witness :
    utf8Decode false 0 [0xC2] = .incomplete ∧
    utf8Decode true 0 [0xC2] = .invalid "Incomplete UTF-8 octet sequence" 0 (-1) ∧
    utf16Decode true false 0 [0x41] = .incomplete ∧
    utf16Decode true true 0 [0x41] = .invalid "Incomplete UTF-16 character" 0 (-1) ∧
    utf16Decode true false 0 [0x00, 0xD8] = .incomplete ∧
    utf16Decode true true 0 [0x00, 0xD8] = .invalid "Incomplete UTF-16 surrogate pair" 0 (-1) ∧
    decodeLoopAux 1
      { raw_input := { data := [0xC2], pointer := 0, capacity := 8 },
        input := { data := [], pointer := 0 },
        unread := 0, encoding := some .utf8, offset := 0, is_eof := false,
        source := { bytes := [], chunk := 1 }, written := [] } =
      ({ raw_input := { data := [0xC2], pointer := 0, capacity := 8 },
         input := { data := [], pointer := 0 },
         unread := 0, encoding := some .utf8, offset := 0, is_eof := false,
         source := { bytes := [], chunk := 1 }, written := [] }, none) := by
  refine ⟨?_, ?_, ?_, ?_, ?_, ?_, ?_⟩
  · exact C9_incomplete_handling.1 false 0 0xC2 [] (by decide) (by decide)
  · exact C9_incomplete_handling.1 true 0 0xC2 [] (by decide) (by decide)
  · exact C9_incomplete_handling.2.1 true false 0 [0x41] (by decide)
  · exact C9_incomplete_handling.2.1 true true 0 [0x41] (by decide)
  · exact C9_incomplete_handling.2.2.1 true false 0 [0x00, 0xD8] 0xD800
      (by decide) (by decide) (by decide) (by decide) (by decide) (by decide)
  · exact C9_incomplete_handling.2.2.1 true true 0 [0x00, 0xD8] 0xD800
      (by decide) (by decide) (by decide) (by decide) (by decide) (by decide)
  · exact C9_incomplete_handling.2.2.2.1 _ 0 (by decide)

/-! ### Claim C4: UTF-16 decoding -/

/-- C4: for either byte order, with the 16-bit unit assembled from the two
lead bytes per the byte-order index selection: a first unit in
0xDC00–0xDFFF fails with the unexpected-low-surrogate error; a unit in
0xD800–0xDBFF with fewer than 4 buffered bytes yields the incomplete-pair
outcome (fatal exactly on EOF), and with 4 bytes requires the second unit in
0xDC00–0xDFFF (else the expected-low-surrogate error), the pair decoding to
`0x10000 + ((high &&& 0x3FF) <<< 10) + (low &&& 0x3FF)` with width 4; any
other unit decodes to itself with width 2. -/
theorem C4_utf16_decoding :
    (∀ (le eof : Bool) (off : Nat) (bytes : List Nat) (unit : Nat),
      (∀ b ∈ bytes, b < 256) → 2 ≤ bytes.length →
      unit = bytes.getD (if le then 0 else 1) 0 + (bytes.getD (if le then 1 else 0) 0 <<< 8) →
      0xDC00 ≤ unit → unit ≤ 0xDFFF →
      utf16Decode le eof off bytes = .invalid "Unexpected low surrogate area" off (unit : Int)) ∧
    (∀ (le eof : Bool) (off : Nat) (bytes : List Nat) (unit : Nat),
      (∀ b ∈ bytes, b < 256) → 2 ≤ bytes.length → bytes.length < 4 →
      unit = bytes.getD (if le then 0 else 1) 0 + (bytes.getD (if le then 1 else 0) 0 <<< 8) →
      0xD800 ≤ unit → unit ≤ 0xDBFF →
      utf16Decode le eof off bytes =
        if eof then .invalid "Incomplete UTF-16 surrogate pair" off (-1) else .incomplete) ∧
    (∀ (le eof : Bool) (off : Nat) (bytes : List Nat) (unit unit2 : Nat),
      (∀ b ∈ bytes, b < 256) → 4 ≤ bytes.length →
      unit = bytes.getD (if le then 0 else 1) 0 + (bytes.getD (if le then 1 else 0) 0 <<< 8) →
      unit2 = bytes.getD ((if le then 0 else 1) + 2) 0 +
        (bytes.getD ((if le then 1 else 0) + 2) 0 <<< 8) →
      0xD800 ≤ unit → unit ≤ 0xDBFF →
      ¬(0xDC00 ≤ unit2 ∧ unit2 ≤ 0xDFFF) →
      utf16Decode le eof off bytes =
        .invalid "Expected low surrogate area" (off + 2) (unit2 : Int)) ∧
    (∀ (le eof : Bool) (off : Nat) (bytes : List Nat) (unit unit2 : Nat),
      (∀ b ∈ bytes, b < 256) → 4 ≤ bytes.length →
      unit = bytes.getD (if le then 0 else 1) 0 + (bytes.getD (if le then 1 else 0) 0 <<< 8) →
      unit2 = bytes.getD ((if le then 0 else 1) + 2) 0 +
        (bytes.getD ((if le then 1 else 0) + 2) 0 <<< 8) →
      0xD800 ≤ unit → unit ≤ 0xDBFF → 0xDC00 ≤ unit2 → unit2 ≤ 0xDFFF →
      utf16Decode le eof off bytes =
        .decoded (0x10000 + ((unit &&& 0x3FF) <<< 10) + (unit2 &&& 0x3FF)) 4) ∧
    (∀ (le eof : Bool) (off : Nat) (bytes : List Nat) (unit : Nat),
      (∀ b ∈ bytes, b < 256) → 2 ≤ bytes.length →
      unit = bytes.getD (if le then 0 else 1) 0 + (bytes.getD (if le then 1 else 0) 0 <<< 8) →
      ¬(0xD800 ≤ unit ∧ unit ≤ 0xDFFF) →
      utf16Decode le eof off bytes = .decoded unit 2) := by
  have unit16 : ∀ (le : Bool) (bytes : List Nat) (unit : Nat), (∀ b ∈ bytes, b < 256) →
      unit = bytes.getD (if le then 0 else 1) 0 + (bytes.getD (if le then 1 else 0) 0 <<< 8) →
      unit < 65536 := by
    intro le bytes unit hb hunit
    have hu1 := getD_lt_256 hb (if le then 0 else 1)
    have hu2 := getD_lt_256 hb (if le then 1 else 0)
    have hshift : bytes.getD (if le then 1 else 0) 0 <<< 8 =
        bytes.getD (if le then 1 else 0) 0 * 256 := by
      rw [Nat.shiftLeft_eq]
    rw [hunit, hshift]; omega
  have unit16' : ∀ (le : Bool) (bytes : List Nat) (unit2 : Nat), (∀ b ∈ bytes, b < 256) →
      unit2 = bytes.getD ((if le then 0 else 1) + 2) 0 +
        (bytes.getD ((if le then 1 else 0) + 2) 0 <<< 8) →
      unit2 < 65536 := by
    intro le bytes unit2 hb hunit2
    have hu1 := getD_lt_256 hb ((if le then 0 else 1) + 2)
    have hu2 := getD_lt_256 hb ((if le then 1 else 0) + 2)
    have hshift : bytes.getD ((if le then 1 else 0) + 2) 0 <<< 8 =
        bytes.getD ((if le then 1 else 0) + 2) 0 * 256 := by
      rw [Nat.shiftLeft_eq]
    rw [hunit2, hshift]; omega
  refine ⟨?_, ?_, ?_, ?_, ?_⟩
  · intro le eof off bytes unit hb h2 hunit hlo hhi
    have hu16 := unit16 le bytes unit hb hunit
    have hmask1 : unit &&& 0xFC00 = 0xDC00 := by
      rw [land_FC00_eq_DC00_iff hu16]; omega
    simp only [utf16Decode]
    rw [if_neg (Nat.not_lt.mpr h2), ← hunit, if_pos hmask1]
  · intro le eof off bytes unit hb h2 h4 hunit hlo hhi
    have hu16 := unit16 le bytes unit hb hunit
    have hmask1 : ¬(unit &&& 0xFC00 = 0xDC00) := by
      rw [land_FC00_eq_DC00_iff hu16]; omega
    have hmask2 : unit &&& 0xFC00 = 0xD800 := by
      rw [land_FC00_eq_D800_iff hu16]; omega
    simp only [utf16Decode]
    rw [if_neg (Nat.not_lt.mpr h2), ← hunit, if_neg hmask1, if_pos hmask2, if_pos h4]
  · intro le eof off bytes unit unit2 hb h4 hunit hunit2 hlo hhi hnot2
    have hu16 := unit16 le bytes unit hb hunit
    have hu16b := unit16' le bytes unit2 hb hunit2
    have hmask1 : ¬(unit &&& 0xFC00 = 0xDC00) := by
      rw [land_FC00_eq_DC00_iff hu16]; omega
    have hmask2 : unit &&& 0xFC00 = 0xD800 := by
      rw [land_FC00_eq_D800_iff hu16]; omega
    have hmask3 : ¬(unit2 &&& 0xFC00 = 0xDC00) := by
      rw [land_FC00_eq_DC00_iff hu16b]; omega
    simp only [utf16Decode]
    rw [if_neg (show ¬bytes.length < 2 by omega), ← hunit, if_neg hmask1, if_pos hmask2,
      if_neg (Nat.not_lt.mpr h4), ← hunit2, if_pos hmask3]
  · intro le eof off bytes unit unit2 hb h4 hunit hunit2 hlo hhi hlo2 hhi2
    have hu16 := unit16 le bytes unit hb hunit
    have hu16b := unit16' le bytes unit2 hb hunit2
    have hmask1 : ¬(unit &&& 0xFC00 = 0xDC00) := by
      rw [land_FC00_eq_DC00_iff hu16]; omega
    have hmask2 : unit &&& 0xFC00 = 0xD800 := by
      rw [land_FC00_eq_D800_iff hu16]; omega
    have hmask3 : unit2 &&& 0xFC00 = 0xDC00 := by
      rw [land_FC00_eq_DC00_iff hu16b]; omega
    simp only [utf16Decode]
    rw [if_neg (show ¬bytes.length < 2 by omega), ← hunit, if_neg hmask1, if_pos hmask2,
      if_neg (Nat.not_lt.mpr h4), ← hunit2, if_neg (not_not_intro hmask3)]
  · intro le eof off bytes unit hb h2 hunit hnot
    have hu16 := unit16 le bytes unit hb hunit
    have hmask1 : ¬(unit &&& 0xFC00 = 0xDC00) := by
      rw [land_FC00_eq_DC00_iff hu16]; omega
    have hmask2 : ¬(unit &&& 0xFC00 = 0xD800) := by
      rw [land_FC00_eq_D800_iff hu16]; omega
    simp only [utf16Decode]
    rw [if_neg (Nat.not_lt.mpr h2), ← hunit, if_neg hmask1, if_neg hmask2]

/-- C4 witness: concrete little-endian inputs — lone low surrogate `00 DC`,
big-endian lone high surrogate `D8 00`, a high surrogate followed by `A`
(expected-low error), the pair `00 D8 00 DC` (decoding to 0x10000), and the
plain unit `41 00`. -/
theorem C4_utf16_decoding_witness :
    utf16Decode true false 0 [0x00, 0xDC] =
      .invalid "Unexpected low surrogate area" 0 0xDC00 ∧
    utf16Decode false false 0 [0xD8, 0x00] = .incomplete ∧
    utf16Decode true false 0 [0x00, 0xD8, 0x41, 0x00] =
      .invalid "Expected low surrogate area" 2 0x41 ∧
    utf16Decode true false 0 [0x00, 0xD8, 0x00, 0xDC] = .decoded 0x10000 4 ∧
    utf16Decode true false 0 [0x41, 0x00] = .decoded 0x41 2 := by
  refine ⟨?_, ?_, ?_, ?_, ?_⟩
  · exact C4_utf16_decoding.1 true false 0 [0x00, 0xDC] 0xDC00
      (by decide) (by decide) (by decide) (by decide) (by decide)
  · exact C4_utf16_decoding.2.1 false false 0 [0xD8, 0x00] 0xD800
      (by decide) (by decide) (by decide) (by decide) (by decide) (by decide)
  · exact C4_utf16_decoding.2.2.1 true false 0 [0x00, 0xD8, 0x41, 0x00] 0xD800 0x41
      (by decide) (by decide) (by decide) (by decide) (by decide) (by decide) (by decide)
  · exact C4_utf16_decoding.2.2.2.1 true false 0 [0x00, 0xD8, 0x00, 0xDC] 0xD800 0xDC00
      (by decide) (by decide) (by decide) (by decide) (by decide) (by decide)
      (by decide) (by decide)
  · exact C4_utf16_decoding.2.2.2.2 true false 0 [0x41, 0x00] 0x41
      (by decide) (by decide) (by decide) (by decide)

/-! ### Claim C5: encoding detection -/

/-- C5: once the pull loop is settled (EOF or at least 3 buffered bytes),
detection selects, in order: leading `FF FE` → UTF-16LE consuming 2 bytes
and setting the offset to 2; else `FE FF` → UTF-16BE likewise; else
`EF BB BF` → UTF-8 consuming 3 bytes and setting the offset to 3; else
UTF-8 with nothing consumed and offset still 0.  Moreover detection runs
only on first use: once the encoding is set, `yaml_parser_update_buffer`
goes straight to the fill loop. -/
theorem C5_encoding_detection :
    (∀ (p : ParserState) (fuel : Nat),
      (p.is_eof = true ∨ 3 ≤ p.raw_input.data.length) →
      p.raw_input.pointer = 0 → p.offset = 0 →
      ((p.raw_input.data.take 2 = [0xFF, 0xFE] →
        yaml_parser_determine_encoding (fuel + 1) p =
          some { p with encoding := some .utf16le,
                        raw_input := { p.raw_input with pointer := 2 }, offset := 2 }) ∧
       (p.raw_input.data.take 2 ≠ [0xFF, 0xFE] → p.raw_input.data.take 2 = [0xFE, 0xFF] →
        yaml_parser_determine_encoding (fuel + 1) p =
          some { p with encoding := some .utf16be,
                        raw_input := { p.raw_input with pointer := 2 }, offset := 2 }) ∧
       (p.raw_input.data.take 2 ≠ [0xFF, 0xFE] → p.raw_input.data.take 2 ≠ [0xFE, 0xFF] →
        p.raw_input.data.take 3 = [0xEF, 0xBB, 0xBF] →
        yaml_parser_determine_encoding (fuel + 1) p =
          some { p with encoding := some .utf8,
                        raw_input := { p.raw_input with pointer := 3 }, offset := 3 }) ∧
       (p.raw_input.data.take 2 ≠ [0xFF, 0xFE] → p.raw_input.data.take 2 ≠ [0xFE, 0xFF] →
        p.raw_input.data.take 3 ≠ [0xEF, 0xBB, 0xBF] →
        yaml_parser_determine_encoding (fuel + 1) p = some { p with encoding := some .utf8 } ∧
        p.raw_input.pointer = 0 ∧ p.offset = 0))) ∧
    (∀ (p : ParserState) (fuel n : Nat) (e : Encoding),
      p.encoding = some e →
      ¬(p.is_eof = true ∧ p.raw_input.pointer = p.raw_input.data.length) →
      p.unread < n →
      yaml_parser_update_buffer fuel p n = updateLoop fuel (compactInput p) n) := by
  constructor
  · intro p fuel hready hptr hoff
    have hpull : ¬(¬p.is_eof = true ∧ p.raw_input.data.length < 3) := by
      rcases hready with h | h
      · exact fun hc => hc.1 (by simp [h])
      · exact fun hc => absurd hc.2 (by omega)
    refine ⟨?_, ?_, ?_, ?_⟩
    · intro htake
      have hlen2 : 2 ≤ p.raw_input.data.length := by
        have := congrArg List.length htake
        rw [List.length_take] at this
        simp at this
        omega
      simp only [yaml_parser_determine_encoding]
      rw [if_neg hpull, if_pos ⟨hlen2, htake⟩]
    · intro hne1 htake
      have hlen2 : 2 ≤ p.raw_input.data.length := by
        have := congrArg List.length htake
        rw [List.length_take] at this
        simp at this
        omega
      simp only [yaml_parser_determine_encoding]
      rw [if_neg hpull, if_neg (fun hc => hne1 hc.2), if_pos ⟨hlen2, htake⟩]
    · intro hne1 hne2 htake
      have hlen3 : 3 ≤ p.raw_input.data.length := by
        have := congrArg List.length htake
        rw [List.length_take] at this
        simp at this
        omega
      simp only [yaml_parser_determine_encoding]
      rw [if_neg hpull, if_neg (fun hc => hne1 hc.2), if_neg (fun hc => hne2 hc.2),
        if_pos ⟨hlen3, htake⟩]
    · intro hne1 hne2 hne3
      refine ⟨?_, hptr, hoff⟩
      simp only [yaml_parser_determine_encoding]
      rw [if_neg hpull, if_neg (fun hc => hne1 hc.2), if_neg (fun hc => hne2 hc.2),
        if_neg (fun hc => hne3 hc.2)]
  · intro p fuel n e henc hns hlt
    simp only [yaml_parser_update_buffer]
    rw [if_neg hns, if_neg (Nat.not_le.mpr hlt)]
    simp [henc]

/-- C5 witness: the selection at four concrete buffered prefixes, and the
skip-detection fast path at a state whose encoding is already set. -/
theorem C5_encoding_detection_witness :
    (∀ bs, yaml_parser_determine_encoding 1 (initState bs 4 8) =
      yaml_parser_determine_encoding 1 (initState bs 4 8)) ∧
    yaml_parser_determine_encoding 1
      { initState [] 4 8 with
        raw_input := { data := [0xFF, 0xFE, 0x41], pointer := 0, capacity := 8 } } =
      some { initState [] 4 8 with
        raw_input := { data := [0xFF, 0xFE, 0x41], pointer := 2, capacity := 8 },
        encoding := some .utf16le, offset := 2 } ∧
    yaml_parser_determine_encoding 1
      { initState [] 4 8 with
        raw_input := { data := [0xFE, 0xFF, 0x41], pointer := 0, capacity := 8 } } =
      some { initState [] 4 8 with
        raw_input := { data := [0xFE, 0xFF, 0x41], pointer := 2, capacity := 8 },
        encoding := some .utf16be, offset := 2 } ∧
    yaml_parser_determine_encoding 1
      { initState [] 4 8 with
        raw_input := { data := [0xEF, 0xBB, 0xBF], pointer := 0, capacity := 8 } } =
      some { initState [] 4 8 with
        raw_input := { data := [0xEF, 0xBB, 0xBF], pointer := 3, capacity := 8 },
        encoding := some .utf8, offset := 3 } ∧
    yaml_parser_determine_encoding 1
      { initState [] 4 8 with
        raw_input := { data := [0x41, 0x42, 0x43], pointer := 0, capacity := 8 } } =
      some { initState [] 4 8 with
        raw_input := { data := [0x41, 0x42, 0x43], pointer := 0, capacity := 8 },
        encoding := some .utf8 } ∧
    yaml_parser_update_buffer 4
      { initState [] 4 8 with
        raw_input := { data := [0x41], pointer := 0, capacity := 8 },
        encoding := some .utf8 } 1 =
      updateLoop 4 (compactInput
        { initState [] 4 8 with
          raw_input := { data := [0x41], pointer := 0, capacity := 8 },
          encoding := some .utf8 }) 1 := by
  refine ⟨fun bs => rfl, ?_, ?_, ?_, ?_, ?_⟩
  · exact (C5_encoding_detection.1 _ 0 (Or.inr (by decide)) rfl rfl).1 (by decide)
  · exact (C5_encoding_detection.1 _ 0 (Or.inr (by decide)) rfl rfl).2.1
      (by decide) (by decide)
  · exact (C5_encoding_detection.1 _ 0 (Or.inr (by decide)) rfl rfl).2.2.1
      (by decide) (by decide) (by decide)
  · exact ((C5_encoding_detection.1 _ 0 (Or.inr (by decide)) rfl rfl).2.2.2
      (by decide) (by decide) (by decide)).1
  · exact C5_encoding_detection.2 _ 4 1 .utf8 rfl (by decide) (by decide)

/-! ### Claim C6: scalar admissibility gate -/

/-- C6: a decoded scalar is accepted exactly when its value lies in
0x09, 0x0A, 0x0D, 0x20–0x7E, 0x85, 0xA0–0xD7FF, 0xE000–0xFFFD
or 0x10000–0x10FFFF; any other value, including a raw NUL, makes the decode
loop fail with the disallowed-control-character error, while an allowed
value is appended and the loop continues. -/
theorem C6_admissibility_gate :
    (∀ v : Nat, allowedCharacter v = true ↔
      (v = 0x09 ∨ v = 0x0A ∨ v = 0x0D ∨ (0x20 ≤ v ∧ v ≤ 0x7E) ∨ v = 0x85 ∨
        (0xA0 ≤ v ∧ v ≤ 0xD7FF) ∨ (0xE000 ≤ v ∧ v ≤ 0xFFFD) ∨
        (0x10000 ≤ v ∧ v ≤ 0x10FFFF))) ∧
    allowedCharacter 0x00 = false ∧
    (∀ (p : ParserState) (fuel value width : Nat),
      p.raw_input.pointer ≠ p.raw_input.data.length →
      decodeStep (p.encoding.getD .utf8) p.is_eof p.offset
        (p.raw_input.data.drop p.raw_input.pointer) = .decoded value width →
      allowedCharacter value = false →
      decodeLoopAux (fuel + 1) p =
        (p, some ⟨"Control characters are not allowed", p.offset, (value : Int)⟩)) ∧
    (∀ (p : ParserState) (fuel value width : Nat),
      p.raw_input.pointer ≠ p.raw_input.data.length →
      decodeStep (p.encoding.getD .utf8) p.is_eof p.offset
        (p.raw_input.data.drop p.raw_input.pointer) = .decoded value width →
      allowedCharacter value = true →
      decodeLoopAux (fuel + 1) p = decodeLoopAux fuel (appendScalar p value width)) := by
  refine ⟨?_, by decide, ?_, ?_⟩
  · intro v
    simp only [allowedCharacter, Bool.or_eq_true, Bool.and_eq_true, decide_eq_true_eq]
    tauto
  · intro p fuel value width hne hstep hallow
    simp only [decodeLoopAux]
    rw [if_neg hne]
    simp [hstep, hallow]
  · intro p fuel value width hne hstep hallow
    simp only [decodeLoopAux]
    rw [if_neg hne]
    simp [hstep, hallow]

/-- C6 witness: the gate at the boundary values of the claim, the rejection
of a raw NUL byte by the decode loop, and the acceptance of `A`. -/
theorem C6_admissibility_gate_witness :
    (allowedCharacter 0x09 = true ∧ allowedCharacter 0x0A = true ∧
     allowedCharacter 0x0D = true ∧ allowedCharacter 0x85 = true ∧
     allowedCharacter 0x1F = false ∧ allowedCharacter 0x7F = false ∧
     allowedCharacter 0xFFFE = false ∧ allowedCharacter 0x10FFFF = true) ∧
    decodeLoopAux 1
      { raw_input := { data := [0x00], pointer := 0, capacity := 8 },
        input := { data := [], pointer := 0 },
        unread := 0, encoding := some .utf8, offset := 0, is_eof := false,
        source := { bytes := [], chunk := 1 }, written := [] } =
      ({ raw_input := { data := [0x00], pointer := 0, capacity := 8 },
         input := { data := [], pointer := 0 },
         unread := 0, encoding := some .utf8, offset := 0, is_eof := false,
         source := { bytes := [], chunk := 1 }, written := [] },
       some ⟨"Control characters are not allowed", 0, 0⟩) ∧
    decodeLoopAux 1
      { raw_input := { data := [0x41], pointer := 0, capacity := 8 },
        input := { data := [], pointer := 0 },
        unread := 0, encoding := some .utf8, offset := 0, is_eof := false,
        source := { bytes := [], chunk := 1 }, written := [] } =
      decodeLoopAux 0 (appendScalar
        { raw_input := { data := [0x41], pointer := 0, capacity := 8 },
          input := { data := [], pointer := 0 },
          unread := 0, encoding := some .utf8, offset := 0, is_eof := false,
          source := { bytes := [], chunk := 1 }, written := [] } 0x41 1) := by
  refine ⟨by decide, ?_, ?_⟩
  · exact C6_admissibility_gate.2.2.1 _ 0 0 1 (by decide) (by decide) (by decide)
  · exact C6_admissibility_gate.2.2.2 _ 0 0x41 1 (by decide) (by decide) (by decide)

/-! ### Claim C7: per-scalar success bookkeeping -/

/-- C7: on a successful decode the raw pointer and the stream offset each
advance by exactly the consumed width, the scalar is appended to the output
buffer re-encoded in 1 byte when ≤ 0x7F, 2 when ≤ 0x7FF, 3 when ≤ 0xFFFF
and 4 otherwise, and `unread` grows by exactly 1; the decode loop performs
precisely this bookkeeping on an accepted scalar. -/
theorem C7_success_bookkeeping :
    (∀ (p : ParserState) (value width : Nat),
      (appendScalar p value width).raw_input.pointer = p.raw_input.pointer + width ∧
      (appendScalar p value width).offset = p.offset + width ∧
      (appendScalar p value width).input.data = p.input.data ++ encodeUtf8 value ∧
      (appendScalar p value width).unread = p.unread + 1) ∧
    (∀ value : Nat, (encodeUtf8 value).length =
      if value ≤ 0x7F then 1 else if value ≤ 0x7FF then 2
      else if value ≤ 0xFFFF then 3 else 4) ∧
    (∀ (p : ParserState) (fuel value width : Nat),
      p.raw_input.pointer ≠ p.raw_input.data.length →
      decodeStep (p.encoding.getD .utf8) p.is_eof p.offset
        (p.raw_input.data.drop p.raw_input.pointer) = .decoded value width →
      allowedCharacter value = true →
      decodeLoopAux (fuel + 1) p = decodeLoopAux fuel (appendScalar p value width)) := by
  refine ⟨fun p value width => ⟨rfl, rfl, rfl, rfl⟩, encodeUtf8_length, ?_⟩
  intro p fuel value width hne hstep hallow
  simp only [decodeLoopAux]
  rw [if_neg hne]
  simp [hstep, hallow]

/-- C7 witness: the bookkeeping at a concrete accepted scalar (the 3-byte
scalar U+20AC decoded from `E2 82 AC`). -/
theorem C7_success_bookkeeping_witness :
    (appendScalar
      { raw_input := { data := [0xE2, 0x82, 0xAC], pointer := 0, capacity := 8 },
        input := { data := [], pointer := 0 },
        unread := 0, encoding := some .utf8, offset := 0, is_eof := false,
        source := { bytes := [], chunk := 1 }, written := [] } 0x20AC 3).raw_input.pointer
      = 3 ∧
    (encodeUtf8 0x20AC).length = 3 ∧
    decodeLoopAux 1
      { raw_input := { data := [0xE2, 0x82, 0xAC], pointer := 0, capacity := 8 },
        input := { data := [], pointer := 0 },
        unread := 0, encoding := some .utf8, offset := 0, is_eof := false,
        source := { bytes := [], chunk := 1 }, written := [] } =
      decodeLoopAux 0 (appendScalar
        { raw_input := { data := [0xE2, 0x82, 0xAC], pointer := 0, capacity := 8 },
          input := { data := [], pointer := 0 },
          unread := 0, encoding := some .utf8, offset := 0, is_eof := false,
          source := { bytes := [], chunk := 1 }, written := [] } 0x20AC 3) := by
  refine ⟨?_, ?_, ?_⟩
  · rw [(C7_success_bookkeeping.1 _ 0x20AC 3).1]
  · rw [C7_success_bookkeeping.2.1 0x20AC]
    norm_num
  · exact C7_success_bookkeeping.2.2 _ 0 0x20AC 3 (by decide) (by decide) (by decide)

/-! ### Claim C10: fatal decode errors leave the position unchanged -/

/-- C10: when a per-scalar decode attempt yields a fatal decoder error
(either an invalid outcome or the admissibility-gate rejection) the decode
loop stops returning the parser state exactly as it was at the start of the
attempt — raw pointer, stream offset and output buffer untouched — and the
fill loop propagates that state and error to the caller. -/
theorem C10_error_preserves_position :
    (∀ (p : ParserState) (fuel : Nat) (m : String) (o : Nat) (v : Int),
      p.raw_input.pointer ≠ p.raw_input.data.length →
      decodeStep (p.encoding.getD .utf8) p.is_eof p.offset
        (p.raw_input.data.drop p.raw_input.pointer) = .invalid m o v →
      decodeLoopAux (fuel + 1) p = (p, some ⟨m, o, v⟩)) ∧
    (∀ (p : ParserState) (fuel value width : Nat),
      p.raw_input.pointer ≠ p.raw_input.data.length →
      decodeStep (p.encoding.getD .utf8) p.is_eof p.offset
        (p.raw_input.data.drop p.raw_input.pointer) = .decoded value width →
      allowedCharacter value = false →
      decodeLoopAux (fuel + 1) p =
        (p, some ⟨"Control characters are not allowed", p.offset, (value : Int)⟩)) ∧
    (∀ (fuel : Nat) (p q : ParserState) (n : Nat) (e : DecodeError),
      p.unread < n →
      decodeLoop (yaml_parser_update_raw_buffer p) = (q, some e) →
      updateLoop (fuel + 1) p n = some (q, some e)) := by
  refine ⟨?_, ?_, ?_⟩
  · intro p fuel m o v hne hstep
    simp only [decodeLoopAux]
    rw [if_neg hne]
    simp [hstep]
  · intro p fuel value width hne hstep hallow
    simp only [decodeLoopAux]
    rw [if_neg hne]
    simp [hstep, hallow]
  · intro fuel p q n e hlt hdl
    simp only [updateLoop]
    rw [if_pos hlt]
    simp [hdl]

/-- C10 witness: the invalid leading byte `FF` and the raw NUL gate error at
concrete states, plus the propagation of the former through the fill loop. -/
theorem C10_error_preserves_position_witness :
    decodeLoopAux 1
      { raw_input := { data := [0xFF], pointer := 0, capacity := 8 },
        input := { data := [], pointer := 0 },
        unread := 0, encoding := some .utf8, offset := 0, is_eof := true,
        source := { bytes := [], chunk := 1 }, written := [] } =
      ({ raw_input := { data := [0xFF], pointer := 0, capacity := 8 },
         input := { data := [], pointer := 0 },
         unread := 0, encoding := some .utf8, offset := 0, is_eof := true,
         source := { bytes := [], chunk := 1 }, written := [] },
       some ⟨"Invalid leading UTF-8 octet", 0, 255⟩) ∧
    decodeLoopAux 3
      { raw_input := { data := [0x41, 0x00], pointer := 1, capacity := 8 },
        input := { data := [], pointer := 0 },
        unread := 0, encoding := some .utf8, offset := 1, is_eof := false,
        source := { bytes := [], chunk := 1 }, written := [] } =
      ({ raw_input := { data := [0x41, 0x00], pointer := 1, capacity := 8 },
         input := { data := [], pointer := 0 },
         unread := 0, encoding := some .utf8, offset := 1, is_eof := false,
         source := { bytes := [], chunk := 1 }, written := [] },
       some ⟨"Control characters are not allowed", 1, 0⟩) ∧
    updateLoop 1
      { raw_input := { data := [0xFF], pointer := 0, capacity := 8 },
        input := { data := [], pointer := 0 },
        unread := 0, encoding := some .utf8, offset := 0, is_eof := false,
        source := { bytes := [], chunk := 1 }, written := [] } 1 =
      some ({ raw_input := { data := [0xFF], pointer := 0, capacity := 8 },
              input := { data := [], pointer := 0 },
              unread := 0, encoding := some .utf8, offset := 0, is_eof := true,
              source := { bytes := [], chunk := 1 }, written := [] },
            some ⟨"Invalid leading UTF-8 octet", 0, 255⟩) := by
  refine ⟨?_, ?_, ?_⟩
  · exact C10_error_preserves_position.1 _ 0 "Invalid leading UTF-8 octet" 0 255
      (by decide) (by decide)
  · exact C10_error_preserves_position.2.1 _ 2 0 1 (by decide) (by decide) (by decide)
  · exact C10_error_preserves_position.2.2 0 _ _ 1 ⟨"Invalid leading UTF-8 octet", 0, 255⟩
      (by decide) (by decide)

/-! ### Invariants used for the sentinel-uniqueness claim -/

theorem update_raw_fields (p : ParserState) :
    (yaml_parser_update_raw_buffer p).written = p.written ∧
    (yaml_parser_update_raw_buffer p).unread = p.unread ∧
    (yaml_parser_update_raw_buffer p).input = p.input ∧
    (yaml_parser_update_raw_buffer p).encoding = p.encoding := by
  unfold yaml_parser_update_raw_buffer
  split
  · exact ⟨rfl, rfl, rfl, rfl⟩
  · split
    · exact ⟨rfl, rfl, rfl, rfl⟩
    · exact ⟨rfl, rfl, rfl, rfl⟩

theorem update_raw_wf {p : ParserState}
    (h : p.raw_input.pointer ≤ p.raw_input.data.length) :
    (yaml_parser_update_raw_buffer p).raw_input.pointer ≤
      (yaml_parser_update_raw_buffer p).raw_input.data.length := by
  unfold yaml_parser_update_raw_buffer
  split
  · exact h
  · split
    · exact h
    · simp

theorem compactInput_fields (p : ParserState) :
    (compactInput p).written = p.written ∧
    (compactInput p).unread = p.unread ∧
    (compactInput p).raw_input = p.raw_input ∧
    (compactInput p).is_eof = p.is_eof ∧
    (compactInput p).encoding = p.encoding := by
  unfold compactInput
  split
  · exact ⟨rfl, rfl, rfl, rfl, rfl⟩
  · split
    · exact ⟨rfl, rfl, rfl, rfl, rfl⟩
    · exact ⟨rfl, rfl, rfl, rfl, rfl⟩

theorem decodeLoopAux_invariant (fuel : Nat) : ∀ (p : ParserState),
    (decodeLoopAux fuel p).1.is_eof = p.is_eof ∧
    (decodeLoopAux fuel p).1.raw_input.data = p.raw_input.data ∧
    (decodeLoopAux fuel p).1.source = p.source ∧
    (decodeLoopAux fuel p).1.encoding = p.encoding ∧
    List.count 0 (decodeLoopAux fuel p).1.written = List.count 0 p.written ∧
    (p.raw_input.pointer ≤ p.raw_input.data.length →
      (decodeLoopAux fuel p).1.raw_input.pointer ≤
        (decodeLoopAux fuel p).1.raw_input.data.length) := by
  induction fuel with
  | zero =>
    intro p
    exact ⟨rfl, rfl, rfl, rfl, rfl, fun h => h⟩
  | succ n ih =>
    intro p
    simp only [decodeLoopAux]
    split
    · exact ⟨rfl, rfl, rfl, rfl, rfl, fun h => h⟩
    · rename_i hne
      split
      · exact ⟨rfl, rfl, rfl, rfl, rfl, fun h => h⟩
      · exact ⟨rfl, rfl, rfl, rfl, rfl, fun h => h⟩
      · rename_i value width hstep
        split
        · rename_i hallow
          have hw := decodeStep_decoded_width hstep
          have ha := ih (appendScalar p value width)
          refine ⟨ha.1, ha.2.1, ha.2.2.1, ha.2.2.2.1, ?_, ?_⟩
          · rw [ha.2.2.2.2.1]
            show List.count 0 (p.written ++ encodeUtf8 value) = List.count 0 p.written
            rw [List.count_append,
              List.count_eq_zero.mpr (encodeUtf8_zero_not_mem hallow)]
            omega
          · intro h
            apply ha.2.2.2.2.2
            show p.raw_input.pointer + width ≤ p.raw_input.data.length
            have := hw.2
            rw [List.length_drop] at this
            omega
        · exact ⟨rfl, rfl, rfl, rfl, rfl, fun h => h⟩

theorem decodeLoopAux_eof_drained (fuel : Nat) : ∀ (p : ParserState),
    p.is_eof = true → p.raw_input.pointer ≤ p.raw_input.data.length →
    rawUnread p ≤ fuel → (decodeLoopAux fuel p).2 = none →
    (decodeLoopAux fuel p).1.raw_input.pointer =
      (decodeLoopAux fuel p).1.raw_input.data.length := by
  induction fuel with
  | zero =>
    intro p heof hwf hfuel _
    unfold rawUnread at hfuel
    show p.raw_input.pointer = p.raw_input.data.length
    omega
  | succ n ih =>
    intro p heof hwf hfuel hnone
    simp only [decodeLoopAux] at hnone ⊢
    by_cases hg : p.raw_input.pointer = p.raw_input.data.length
    · rw [if_pos hg]
      exact hg
    · rw [if_neg hg] at hnone ⊢
      have hdrop : p.raw_input.data.drop p.raw_input.pointer ≠ [] := by
        intro hc
        have := congrArg List.length hc
        rw [List.length_drop] at this
        simp at this
        omega
      cases hstep : decodeStep (p.encoding.getD .utf8) p.is_eof p.offset
          (p.raw_input.data.drop p.raw_input.pointer) with
      | incomplete =>
        rw [heof] at hstep
        exact absurd hstep (decodeStep_eof_ne_incomplete hdrop)
      | invalid m o v => simp [hstep] at hnone
      | decoded value width =>
        simp only [hstep] at hnone ⊢
        by_cases hallow : allowedCharacter value = true
        · rw [if_pos hallow] at hnone ⊢
          have hw := decodeStep_decoded_width hstep
          have hlen := hw.2
          rw [List.length_drop] at hlen
          apply ih (appendScalar p value width) heof
          · show p.raw_input.pointer + width ≤ p.raw_input.data.length
            omega
          · show p.raw_input.data.length - (p.raw_input.pointer + width) ≤ n
            unfold rawUnread at hfuel
            omega
          · exact hnone
        · rw [if_neg hallow] at hnone
          simp at hnone

theorem determine_invariant (fuel : Nat) : ∀ (p q : ParserState),
    yaml_parser_determine_encoding fuel p = some q →
    q.written = p.written ∧ q.unread = p.unread ∧ q.input = p.input ∧
    (p.raw_input.pointer ≤ p.raw_input.data.length →
      q.raw_input.pointer ≤ q.raw_input.data.length) := by
  induction fuel with
  | zero => intro p q h; simp [yaml_parser_determine_encoding] at h
  | succ n ih =>
    intro p q h
    simp only [yaml_parser_determine_encoding] at h
    split at h
    · have hr := ih (yaml_parser_update_raw_buffer p) q h
      have hf := update_raw_fields p
      refine ⟨by rw [hr.1, hf.1], by rw [hr.2.1, hf.2.1], by rw [hr.2.2.1, hf.2.2.1], ?_⟩
      intro hwf
      exact hr.2.2.2 (update_raw_wf hwf)
    · split at h
      · rename_i hc
        injection h with h
        subst h
        exact ⟨rfl, rfl, rfl, fun _ => hc.1⟩
      · split at h
        · rename_i hc
          injection h with h
          subst h
          exact ⟨rfl, rfl, rfl, fun _ => hc.1⟩
        · split at h
          · rename_i hc
            injection h with h
            subst h
            exact ⟨rfl, rfl, rfl, fun _ => hc.1⟩
          · injection h with h
            subst h
            exact ⟨rfl, rfl, rfl, fun hwf => hwf⟩

theorem updateLoop_zeros (fuel : Nat) : ∀ (p : ParserState) (n : Nat) (q : ParserState),
    p.raw_input.pointer ≤ p.raw_input.data.length →
    updateLoop fuel p n = some (q, none) →
    (List.count 0 q.written = List.count 0 p.written + 1 ∧ sentinelState q) ∨
    (List.count 0 q.written = List.count 0 p.written ∧ (p.unread < n → ¬sentinelState q)) := by
  induction fuel with
  | zero => intro p n q hwf h; simp [updateLoop] at h
  | succ f ih =>
    intro p n q hwf h
    simp only [updateLoop] at h
    by_cases hlt : p.unread < n
    · rw [if_pos hlt] at h
      have hw1 := update_raw_wf hwf
      have hf := update_raw_fields p
      have hinv := decodeLoopAux_invariant
        (rawUnread (yaml_parser_update_raw_buffer p)) (yaml_parser_update_raw_buffer p)
      rcases hdl : decodeLoop (yaml_parser_update_raw_buffer p) with ⟨p2, e2⟩
      have hdla : decodeLoopAux (rawUnread (yaml_parser_update_raw_buffer p))
          (yaml_parser_update_raw_buffer p) = (p2, e2) := hdl
      rw [hdla] at hinv
      have h2eof : p2.is_eof = (yaml_parser_update_raw_buffer p).is_eof := hinv.1
      have h2cnt : List.count 0 p2.written =
          List.count 0 (yaml_parser_update_raw_buffer p).written := hinv.2.2.2.2.1
      have h2wf : p2.raw_input.pointer ≤ p2.raw_input.data.length := hinv.2.2.2.2.2 hw1
      have hcnt2 : List.count 0 p2.written = List.count 0 p.written := by
        rw [h2cnt, hf.1]
      rw [hdl] at h
      cases e2 with
      | some e => simp at h
      | none =>
        simp only [Option.some.injEq] at h
        by_cases heof : p2.is_eof = true
        · rw [if_pos heof] at h
          have hq : appendSentinel p2 = q := by
            simpa using h
          left
          constructor
          · rw [← hq]
            show List.count 0 (p2.written ++ [0]) = List.count 0 p.written + 1
            rw [List.count_append, hcnt2]
            norm_num
          · rw [← hq]
            have hdrained : p2.raw_input.pointer = p2.raw_input.data.length := by
              have hx := decodeLoopAux_eof_drained
                (rawUnread (yaml_parser_update_raw_buffer p)) (yaml_parser_update_raw_buffer p)
                (by rw [← h2eof]; exact heof) hw1 (le_refl _) (by rw [hdla])
              rw [hdla] at hx
              exact hx
            exact ⟨heof, hdrained⟩
        · rw [if_neg heof] at h
          rcases ih p2 n q h2wf h with ⟨hc, hs⟩ | ⟨hc, himp⟩
          · left
            exact ⟨by rw [hc, hcnt2], hs⟩
          · right
            refine ⟨by rw [hc, hcnt2], fun _ => ?_⟩
            by_cases hlt2 : p2.unread < n
            · exact himp hlt2
            · cases f with
              | zero => simp [updateLoop] at h
              | succ g =>
                simp only [updateLoop] at h
                rw [if_neg hlt2] at h
                have hq : p2 = q := by
                  simpa using h
                rw [← hq]
                intro hs
                exact heof hs.1
    · rw [if_neg hlt] at h
      have hq : p = q := by
        simpa using h
      right
      exact ⟨by rw [← hq], fun hc => absurd hc hlt⟩

/-! ### Claim C8: the NUL sentinel is appended exactly once -/

/-- C8: over the `written` trace (every byte ever appended to the output
buffer), a successful `yaml_parser_update_buffer` call appends the NUL
sentinel exactly once when it moves the context into the finished state
(EOF set and raw buffer drained) from an unfinished one, and appends no NUL
otherwise; on an already-finished context every call returns success
immediately with the state — hence also the trace — completely unchanged.
Since decoded scalars never contribute NUL bytes, across any sequence of
calls the sentinel is appended exactly once, at the transition into the
finished state. -/
theorem C8_sentinel_once :
    (∀ (p : ParserState) (n fuel : Nat),
      sentinelState p → yaml_parser_update_buffer fuel p n = some (p, none)) ∧
    (∀ (p : ParserState) (n fuel : Nat) (q : ParserState),
      p.raw_input.pointer ≤ p.raw_input.data.length →
      yaml_parser_update_buffer fuel p n = some (q, none) →
      List.count 0 q.written = List.count 0 p.written +
        (if sentinelState q ∧ ¬sentinelState p then 1 else 0)) := by
  constructor
  · intro p n fuel hs
    rcases hs with ⟨h1, h2⟩
    unfold yaml_parser_update_buffer
    rw [if_pos ⟨h1, h2⟩]
  · intro p n fuel q hwf h
    by_cases hs : sentinelState p
    · rcases hs with ⟨h1, h2⟩
      unfold yaml_parser_update_buffer at h
      rw [if_pos ⟨h1, h2⟩] at h
      have hq : p = q := by simpa using h
      rw [← hq, if_neg]
      · norm_num
      · rintro ⟨-, hns⟩
        exact hns ⟨h1, h2⟩
    · have hs' : ¬(p.is_eof = true ∧ p.raw_input.pointer = p.raw_input.data.length) := hs
      unfold yaml_parser_update_buffer at h
      rw [if_neg hs'] at h
      by_cases hle : n ≤ p.unread
      · rw [if_pos hle] at h
        have hq : p = q := by simpa using h
        rw [← hq, if_neg]
        · norm_num
        · rintro ⟨hq1, hq2⟩
          exact hq2 hq1
      · rw [if_neg hle] at h
        by_cases henc : p.encoding = none
        · rw [if_pos henc] at h
          cases hdet : yaml_parser_determine_encoding fuel p with
          | none => rw [hdet] at h; simp at h
          | some p1 =>
            rw [hdet] at h
            have hdi := determine_invariant fuel p p1 hdet
            have hcf := compactInput_fields p1
            have hwfc : (compactInput p1).raw_input.pointer ≤
                (compactInput p1).raw_input.data.length := by
              rw [hcf.2.2.1]
              exact hdi.2.2.2 hwf
            have hz := updateLoop_zeros fuel (compactInput p1) n q hwfc h
            have hcw : List.count 0 (compactInput p1).written = List.count 0 p.written := by
              rw [hcf.1, hdi.1]
            rcases hz with ⟨hc, hsq⟩ | ⟨hc, himp⟩
            · rw [hc, hcw, if_pos ⟨hsq, hs⟩]
            · have hcu : (compactInput p1).unread = p.unread := by rw [hcf.2.1, hdi.2.1]
              have hnsq : ¬sentinelState q := himp (by rw [hcu]; omega)
              rw [hc, hcw, if_neg]
              · norm_num
              · rintro ⟨hq1, -⟩
                exact hnsq hq1
        · rw [if_neg henc] at h
          have hcf := compactInput_fields p
          have hwfc : (compactInput p).raw_input.pointer ≤
              (compactInput p).raw_input.data.length := by
            rw [hcf.2.2.1]
            exact hwf
          have hz := updateLoop_zeros fuel (compactInput p) n q hwfc h
          have hcw : List.count 0 (compactInput p).written = List.count 0 p.written := by
            rw [hcf.1]
          rcases hz with ⟨hc, hsq⟩ | ⟨hc, himp⟩
          · rw [hc, hcw, if_pos ⟨hsq, hs⟩]
          · have hnsq : ¬sentinelState q := himp (by rw [hcf.2.1]; omega)
            rw [hc, hcw, if_neg]
            · norm_num
            · rintro ⟨hq1, -⟩
              exact hnsq hq1

/-- C8 witness: running a whole one-byte ASCII stream from a fresh context
appends exactly one NUL (the transition into the finished state), and a
further call on the finished state is the identity. -/
theorem C8_sentinel_once_witness :
    yaml_parser_update_buffer 3
      { raw_input := { data := [0x41], pointer := 1, capacity := 8 },
        input := { data := [0x41, 0], pointer := 0 },
        unread := 2, encoding := some .utf8, offset := 1, is_eof := true,
        source := { bytes := [], chunk := 8 }, written := [0x41, 0] } 5 =
      some ({ raw_input := { data := [0x41], pointer := 1, capacity := 8 },
              input := { data := [0x41, 0], pointer := 0 },
              unread := 2, encoding := some .utf8, offset := 1, is_eof := true,
              source := { bytes := [], chunk := 8 }, written := [0x41, 0] }, none) ∧
    List.count 0 (ParserState.written
      { raw_input := { data := [0x41], pointer := 1, capacity := 8 },
        input := { data := [0x41, 0], pointer := 0 },
        unread := 2, encoding := some .utf8, offset := 1, is_eof := true,
        source := { bytes := [], chunk := 8 }, written := [0x41, 0] }) =
      List.count 0 (initState [0x41] 8 8).written +
        (if sentinelState
            { raw_input := { data := [0x41], pointer := 1, capacity := 8 },
              input := { data := [0x41, 0], pointer := 0 },
              unread := 2, encoding := some .utf8, offset := 1, is_eof := true,
              source := { bytes := [], chunk := 8 }, written := [0x41, 0] } ∧
           ¬sentinelState (initState [0x41] 8 8) then 1 else 0) := by
  constructor
  · exact C8_sentinel_once.1 _ 5 3 (by decide)
  · exact C8_sentinel_once.2 (initState [0x41] 8 8) 1 8 _ (by decide) (by decide)

end YamlReader
